import Mathlib

/-!
Verification development for an intraday ORB + VWAP alert bot
(single source file `main.py`).

The per-symbol evaluation of the bot's main loop is embedded shallowly:
prices and volumes are rational numbers, times of day are minutes after
midnight, calendar dates are natural numbers.  The embedding follows the
source line by line:

* `evalSymbol` is the loop body for one symbol (lines 116-206): candle-count
  guard, current-date filter, last-closed-candle selection (`day.iloc[-2]`),
  sell logic, then buy logic.
* In the source, `last = day.iloc[-2]` (line 138) snapshots the row *before*
  the `vwap` column is added to `day` (line 182).  The snapshot therefore has
  no `vwap` field, and the read `last["vwap"]` on line 187 raises `KeyError`
  whenever the left conjunct `last["close"] > orb_high` is true.  `evalSymbol`
  models this with the `errorVwapKey` outcome.
* `evalSymbolFixed` is the same function with the single slip repaired: the
  comparison and stop-loss use the vwap value the source computes and stores
  in the `day` frame at line 182 (the value the entry formulas on lines
  187-190 are written for).  It is used to analyse the intended entry path,
  which is unreachable in the source as written.
* Exceptions (data-fetch failure, notification-send failure, the two
  KeyError/IndexError outcomes) propagate to the `try/except` around the
  cycle (lines 74-212): `evalExcWith`, `runCycleWith` and `runAllWith` model
  the per-symbol step with exceptions, one for-loop pass over the watchlist,
  and the outer `while True` loop.

Candles carry only the fields the program reads (`date`, time of day,
`high`, `low`, `close`, `volume`); the `open` column is fetched but never
used by the source.  Volumes are assumed nonnegative where it matters (the
source's float semantics for a zero cumulative volume, a 0/0 = NaN whose
comparisons are all false, is modelled by `vwapAt` returning `none` and the
comparison treating `none` as false).
-/

namespace OrbVwap

/-! ## Constants (src/main.py lines 31-39) -/

/-- 09:15 as minutes after midnight. -/
def ORB_START : Nat := 555

/-- 09:30 as minutes after midnight. -/
def ORB_END : Nat := 570

/-- 11:30 as minutes after midnight. -/
def NO_ENTRY_AFTER : Nat := 690

/-- Minimum opening-range size in percent (0.25). -/
def MIN_ORB_PCT : ℚ := 1/4

/-- Reward-to-risk multiple (2.0). -/
def RR : ℚ := 2

/-! ## Data model -/

/-- One 5-minute OHLCV candle; `date` is a calendar-date ordinal and `time`
the candle's time of day in minutes after midnight. -/
structure Candle where
  date : Nat
  time : Nat
  high : ℚ
  low : ℚ
  close : ℚ
  volume : ℚ
deriving DecidableEq, Repr

/-- A paper trade as stored in `open_trades` (line 200-204). -/
structure Trade where
  entry : ℚ
  sl : ℚ
  target : ℚ
deriving DecidableEq, Repr

/-- The mutable state of a process run: `sent_today` (line 67) and
`open_trades` (line 68). -/
structure EngineState where
  sentToday : List (String × Nat)
  openTrades : List (String × Trade)
deriving DecidableEq, Repr

/-- Membership test of `(sym, date)` in `sent_today` (line 168). -/
def sentMem (sent : List (String × Nat)) (sym : String) (d : Nat) : Bool :=
  sent.any (fun k => k.fst == sym && k.snd == d)

/-- Lookup of `open_trades[sym]` (`sym in open_trades`, line 141). -/
def lookupTrade : List (String × Trade) → String → Option Trade
  | [], _ => none
  | (s, tr) :: rest, sym => if s == sym then some tr else lookupTrade rest sym

/-- `del open_trades[sym]` (lines 152, 163). -/
def removeTrade (ts : List (String × Trade)) (sym : String) : List (String × Trade) :=
  ts.filter (fun p => !(p.fst == sym))

/-- `open_trades[sym] = {...}` (line 200). -/
def insertTrade (ts : List (String × Trade)) (sym : String) (tr : Trade) :
    List (String × Trade) :=
  (sym, tr) :: removeTrade ts sym

/-! ## Per-day derived data -/

/-- The candles of the current calendar date (line 131). -/
def dayOf (today : Nat) (candles : List Candle) : List Candle :=
  candles.filter (fun c => c.date == today)

/-- The opening-range subset: time of day in `[ORB_START, ORB_END)`
(line 171). -/
def orbOf (day : List Candle) : List Candle :=
  day.filter (fun c => decide (ORB_START ≤ c.time) && decide (c.time < ORB_END))

/-- Maximum of a list of rationals (`Series.max` on a nonempty series);
junk value `0` on the empty list, which every caller guards against. -/
def listMax : List ℚ → ℚ
  | [] => 0
  | [x] => x
  | x :: y :: rest => max x (listMax (y :: rest))

/-- Minimum of a list of rationals (`Series.min` on a nonempty series). -/
def listMin : List ℚ → ℚ
  | [] => 0
  | [x] => x
  | x :: y :: rest => min x (listMin (y :: rest))

/-- `orb_high = orb["high"].max()` (line 175). -/
def orbHighOf (day : List Candle) : ℚ :=
  listMax ((orbOf day).map (fun c => c.high))

/-- `orb_low = orb["low"].min()` (line 176). -/
def orbLowOf (day : List Candle) : ℚ :=
  listMin ((orbOf day).map (fun c => c.low))

/-- Typical price `(high + low + close) / 3` (line 181). -/
def tp (c : Candle) : ℚ := (c.high + c.low + c.close) / 3

/-- The vwap column value at row `i` of the day (line 182):
cumulative sum of `tp * volume` over rows `0..i` divided by the cumulative
volume.  A zero cumulative volume gives float `0/0 = NaN` in the source;
the embedding returns `none` there, and comparisons treat `none` as false,
matching IEEE NaN comparison semantics. -/
def vwapAt (day : List Candle) (i : Nat) : Option ℚ :=
  if ((day.take (i+1)).map (fun c => c.volume)).sum = 0 then none
  else some ((((day.take (i+1)).map (fun c => tp c * c.volume)).sum) /
             ((day.take (i+1)).map (fun c => c.volume)).sum)

/-! ## Outcomes of one per-symbol evaluation -/

/-- What one pass of the loop body does for one symbol.  The `skip…`
constructors are the `continue` branches, `errorIndex` is the IndexError of
`day.iloc[-2]` on a one-row day, `errorVwapKey` is the KeyError of
`last["vwap"]` (see module comment), and the exit/entry constructors carry
the values the corresponding alert message would report. -/
inductive Outcome where
  | skipFewCandles
  | skipNoDay
  | errorIndex
  | errorVwapKey
  | exitTarget (t : Nat) (close target : ℚ)
  | exitStop (t : Nat) (close sl : ℚ)
  | skipSent
  | skipNoOrb
  | skipOrbPct
  | skipTimeWindow
  | noSignal
  | entrySignal (t : Nat) (entry sl target : ℚ)
deriving DecidableEq, Repr

/-- True exactly on `entrySignal`. -/
def IsEntryB : Outcome → Bool
  | .entrySignal _ _ _ _ => true
  | _ => false

/-- True exactly on `exitTarget` and `exitStop`. -/
def IsExitB : Outcome → Bool
  | .exitTarget _ _ _ => true
  | .exitStop _ _ _ => true
  | _ => false

/-! ## Buy logic (lines 166-206) -/

/-- The buy logic as written in the source.  After the sent-registry, orb,
range-size and entry-window guards, line 187 evaluates
`last["close"] > orb_high and last["close"] > last["vwap"]`: if the first
conjunct is true the read `last["vwap"]` raises KeyError (the row snapshot
predates the vwap column), otherwise the conjunction is false and the
iteration falls through with no signal. -/
def buyFaithful (today : Nat) (st : EngineState) (sym : String)
    (day : List Candle) (last : Candle) : Outcome × EngineState :=
  if sentMem st.sentToday sym today then (.skipSent, st)
  else if (orbOf day).isEmpty then (.skipNoOrb, st)
  else if (orbHighOf day - orbLowOf day) / orbLowOf day * 100 < MIN_ORB_PCT then
    (.skipOrbPct, st)
  else if ¬ (ORB_END < last.time ∧ last.time ≤ NO_ENTRY_AFTER) then
    (.skipTimeWindow, st)
  else if orbHighOf day < last.close then (.errorVwapKey, st)
  else (.noSignal, st)

/-- The buy logic with the one slip repaired: the vwap read returns the
value computed and stored at line 182, i.e. `vwapAt day (day.length - 2)`
for the last closed candle `day.iloc[-2]`.  Entry values follow lines
188-204: `sl = max(orb_low, vwap)`, `risk = close - sl`,
`target = close + RR * risk`; the trade is registered and the `(sym, date)`
key added to `sent_today`. -/
def buyFixed (today : Nat) (st : EngineState) (sym : String)
    (day : List Candle) (last : Candle) : Outcome × EngineState :=
  if sentMem st.sentToday sym today then (.skipSent, st)
  else if (orbOf day).isEmpty then (.skipNoOrb, st)
  else if (orbHighOf day - orbLowOf day) / orbLowOf day * 100 < MIN_ORB_PCT then
    (.skipOrbPct, st)
  else if ¬ (ORB_END < last.time ∧ last.time ≤ NO_ENTRY_AFTER) then
    (.skipTimeWindow, st)
  else if orbHighOf day < last.close then
    match vwapAt day (day.length - 2) with
    | none => (.noSignal, st)
    | some v =>
      if v < last.close then
        (.entrySignal last.time last.close (max (orbLowOf day) v)
           (last.close + RR * (last.close - max (orbLowOf day) v)),
         ⟨(sym, today) :: st.sentToday,
          insertTrade st.openTrades sym
            ⟨last.close, max (orbLowOf day) v,
             last.close + RR * (last.close - max (orbLowOf day) v)⟩⟩)
      else (.noSignal, st)
  else (.noSignal, st)

/-! ## One per-symbol pass of the loop body (lines 116-206) -/

/-- The loop body for one symbol, as the source executes it: candle-count
guard (line 124), current-date filter and empty check (lines 131-133),
last-closed-candle selection `day.iloc[-2]` (line 138, IndexError on a
one-row day), sell logic (lines 141-164, target checked before stop, each
exit removes the trade and ends the iteration), then buy logic. -/
def evalSymbol (today : Nat) (st : EngineState) (sym : String)
    (candles : List Candle) : Outcome × EngineState :=
  if candles.length < 20 then (.skipFewCandles, st)
  else if (dayOf today candles).isEmpty then (.skipNoDay, st)
  else
    match (dayOf today candles).dropLast.getLast? with
    | none => (.errorIndex, st)
    | some last =>
      match lookupTrade st.openTrades sym with
      | some trade =>
        if trade.target ≤ last.close then
          (.exitTarget last.time last.close trade.target,
           ⟨st.sentToday, removeTrade st.openTrades sym⟩)
        else if last.close ≤ trade.sl then
          (.exitStop last.time last.close trade.sl,
           ⟨st.sentToday, removeTrade st.openTrades sym⟩)
        else buyFaithful today st sym (dayOf today candles) last
      | none => buyFaithful today st sym (dayOf today candles) last

/-- `evalSymbol` with `buyFixed` in place of `buyFaithful`: the loop body
with the intended vwap read (see `buyFixed`). -/
def evalSymbolFixed (today : Nat) (st : EngineState) (sym : String)
    (candles : List Candle) : Outcome × EngineState :=
  if candles.length < 20 then (.skipFewCandles, st)
  else if (dayOf today candles).isEmpty then (.skipNoDay, st)
  else
    match (dayOf today candles).dropLast.getLast? with
    | none => (.errorIndex, st)
    | some last =>
      match lookupTrade st.openTrades sym with
      | some trade =>
        if trade.target ≤ last.close then
          (.exitTarget last.time last.close trade.target,
           ⟨st.sentToday, removeTrade st.openTrades sym⟩)
        else if last.close ≤ trade.sl then
          (.exitStop last.time last.close trade.sl,
           ⟨st.sentToday, removeTrade st.openTrades sym⟩)
        else buyFixed today st sym (dayOf today candles) last
      | none => buyFixed today st sym (dayOf today candles) last

/-! ## The evaluation cycle with exceptions (lines 74-212) -/

/-- The input the cycle has for one symbol: its candle fetch, whether the
fetch call succeeds, and whether a notification send for this symbol's
alert would succeed. -/
structure SymInput where
  sym : String
  candles : List Candle
  fetchOk : Bool
  sendOk : Bool
deriving DecidableEq, Repr

/-- Result of one per-symbol step: a normal outcome with the new state, or
an exception carrying the state at the raise point. -/
inductive StepResult where
  | ok (o : Outcome) (st : EngineState)
  | exc (st : EngineState)
deriving DecidableEq, Repr

/-- An evaluator is the loop body for one symbol (instantiated with
`evalSymbol` or `evalSymbolFixed`). -/
abbrev Evaluator := Nat → EngineState → String → List Candle → Outcome × EngineState

/-- One per-symbol step with the source's exception behaviour: a failed
fetch raises (line 117); the IndexError and KeyError outcomes raise; an
exit or entry alert first calls `send_telegram`, which raises on send
failure *before* the state is mutated (the `del`/registration follow the
send in the source), so a failed send leaves the state unchanged. -/
def evalExcWith (f : Evaluator) (today : Nat) (st : EngineState)
    (inp : SymInput) : StepResult :=
  if inp.fetchOk then
    match f today st inp.sym inp.candles with
    | (.errorIndex, _) => .exc st
    | (.errorVwapKey, _) => .exc st
    | (.exitTarget t c tg, st1) =>
      if inp.sendOk then .ok (.exitTarget t c tg) st1 else .exc st
    | (.exitStop t c s, st1) =>
      if inp.sendOk then .ok (.exitStop t c s) st1 else .exc st
    | (.entrySignal t e s tg, st1) =>
      if inp.sendOk then .ok (.entrySignal t e s tg) st1 else .exc st
    | (o, st1) => .ok o st1
  else .exc st

/-- One pass of the `for sym, token in TOKENS.items()` loop.  An exception
anywhere abandons the remaining symbols (it propagates to the `except` at
line 210); the boolean records whether the cycle was aborted that way. -/
def runCycleWith (f : Evaluator) (today : Nat) (st : EngineState) :
    List SymInput → List (String × Outcome) × EngineState × Bool
  | [] => ([], st, false)
  | inp :: rest =>
    match evalExcWith f today st inp with
    | .ok o st1 =>
      ((inp.sym, o) :: (runCycleWith f today st1 rest).1,
       (runCycleWith f today st1 rest).2)
    | .exc st1 => ([], st1, true)

/-- The outer `while True` loop over successive evaluation cycles of one
trading day: the top-level `except` consumes any exception, so the next
cycle always runs from the state the previous cycle reached.  Returns the
concatenated event trace and the final state. -/
def runAllWith (f : Evaluator) (today : Nat) (st : EngineState) :
    List (List SymInput) → List (String × Outcome) × EngineState
  | [] => ([], st)
  | cyc :: rest =>
    ((runCycleWith f today st cyc).1 ++
      (runAllWith f today (runCycleWith f today st cyc).2.1 rest).1,
     (runAllWith f today (runCycleWith f today st cyc).2.1 rest).2)

/-! ## Trace predicates and state invariants -/

/-- Number of entry events for `sym` in a trace. -/
def countEntriesFor (sym : String) (tr : List (String × Outcome)) : Nat :=
  (tr.filter (fun x => x.fst == sym && IsEntryB x.snd)).length

/-- Trace element is an exit event for `sym`. -/
def isExitFor (sym : String) (x : String × Outcome) : Bool :=
  x.fst == sym && IsExitB x.snd

/-- Trace element is an entry event for `sym`. -/
def isEntryFor (sym : String) (x : String × Outcome) : Bool :=
  x.fst == sym && IsEntryB x.snd

/-- Trace element is an exit or entry event for `sym`. -/
def isEventFor (sym : String) (x : String × Outcome) : Bool :=
  isExitFor sym x || isEntryFor sym x

/-- Every open trade's symbol already has its `(sym, today)` key in
`sent_today`.  This holds in every reachable state of a run (trades are
only created together with the key, line 200-206) and is preserved by
every step. -/
def invB (today : Nat) (st : EngineState) : Bool :=
  st.openTrades.all (fun p => sentMem st.sentToday p.fst today)

/-- A symbol that is flat and already registered for the day: no trade is
open for it and its key is in `sent_today`.  After an exit this holds and
persists, blocking any further exit or entry for the symbol that day. -/
def Dead (sym : String) (today : Nat) (st : EngineState) : Prop :=
  lookupTrade st.openTrades sym = none ∧ sentMem st.sentToday sym today = true

/-! ## Concrete inputs for witnesses and counterexamples.

Date `0` is the previous trading day, date `1` is the current one; the
prior-day filler candles only serve to satisfy the 20-candle floor of
line 124. -/

/-- Build a candle. -/
def mkC (d t : Nat) (h l c v : ℚ) : Candle := ⟨d, t, h, l, c, v⟩

/-- 18 prior-day filler candles. -/
def fillers : List Candle :=
  [mkC 0 555 10 9 9 1, mkC 0 560 10 9 9 1, mkC 0 565 10 9 9 1,
   mkC 0 570 10 9 9 1, mkC 0 575 10 9 9 1, mkC 0 580 10 9 9 1,
   mkC 0 585 10 9 9 1, mkC 0 590 10 9 9 1, mkC 0 595 10 9 9 1,
   mkC 0 600 10 9 9 1, mkC 0 605 10 9 9 1, mkC 0 610 10 9 9 1,
   mkC 0 615 10 9 9 1, mkC 0 620 10 9 9 1, mkC 0 625 10 9 9 1,
   mkC 0 630 10 9 9 1, mkC 0 635 10 9 9 1, mkC 0 640 10 9 9 1]

/-- 20 prior-day filler candles. -/
def fillers20 : List Candle :=
  fillers ++ [mkC 0 645 10 9 9 1, mkC 0 650 10 9 9 1]

/-- Empty engine state (process start, line 67-68). -/
def st0 : EngineState := ⟨[], []⟩

/-- A day meeting all four entry conditions: opening range 100-102
(1.97 percent), last closed candle at 09:35 closing at 103 above both the
range high and the vwap 911/9. -/
def cs1 : List Candle := fillers ++
  [mkC 1 555 101 100 100 1, mkC 1 560 102 100 101 1,
   mkC 1 575 103 101 103 1, mkC 1 580 104 102 103 1]

/-- The same day with every current-day volume zero: the cumulative volume
at the last closed candle is 0. -/
def cs9 : List Candle := fillers ++
  [mkC 1 555 101 100 100 0, mkC 1 560 102 100 101 0,
   mkC 1 575 103 101 103 0, mkC 1 580 104 102 103 0]

/-- A day whose opening range is exactly 0.25 percent of its low
(400 to 401), with a qualifying breakout candle. -/
def csB : List Candle := fillers ++
  [mkC 1 555 401 400 400 1, mkC 1 575 402 400 402 1, mkC 1 580 403 401 402 1]

/-- A day whose opening range is 0.1 percent of its low (below the
0.25 gate). -/
def csR : List Candle := fillers ++
  [mkC 1 555 1001 1000 1000 1, mkC 1 575 1002 1000 1002 1,
   mkC 1 580 1003 1001 1002 1]

/-- A day whose last closed candle closes at 105, above the target 104 of
the open trade in `stT`. -/
def csX : List Candle := fillers ++
  [mkC 1 555 101 100 100 1, mkC 1 560 102 100 101 1,
   mkC 1 575 106 104 105 1, mkC 1 580 106 104 105 1]

/-- 21 raw candles of which exactly one is dated today: `day.iloc[-2]`
raises IndexError on the one-row day. -/
def cs10 : List Candle := fillers20 ++ [mkC 1 555 101 100 100 1]

/-- A state with an open trade for TCS (entry 100, stop 98, target 104)
whose day key is registered, as every reachable state has it. -/
def stT : EngineState := ⟨[("TCS", 1)], [("TCS", ⟨100, 98, 104⟩)]⟩

/-! ## Helper lemmas about the state operations -/

theorem listMin_mem : ∀ l : List ℚ, l ≠ [] → listMin l ∈ l
  | [x], _ => by simp [listMin]
  | x :: y :: rest, _ => by
    have ih := listMin_mem (y :: rest) (by simp)
    rcases min_choice x (listMin (y :: rest)) with h | h
    · simp only [listMin]; rw [h]; exact List.mem_cons_self x _
    · simp only [listMin]; rw [h]; exact List.mem_cons_of_mem x ih

theorem sentMem_cons (k : String × Nat) (l : List (String × Nat)) (sym : String) (d : Nat) :
    sentMem (k :: l) sym d = ((k.fst == sym && k.snd == d) || sentMem l sym d) := by
  simp [sentMem]

theorem sentMem_cons_of (k : String × Nat) {l : List (String × Nat)} {sym : String} {d : Nat}
    (h : sentMem l sym d = true) : sentMem (k :: l) sym d = true := by
  simp [sentMem_cons, h]

theorem sentMem_cons_self (l : List (String × Nat)) (sym : String) (d : Nat) :
    sentMem ((sym, d) :: l) sym d = true := by
  simp [sentMem_cons]

theorem lookupTrade_remove_self (ts : List (String × Trade)) (sym : String) :
    lookupTrade (removeTrade ts sym) sym = none := by
  induction ts with
  | nil => rfl
  | cons p rest ih =>
    by_cases hp : (p.fst == sym) = true
    · simpa [removeTrade, List.filter_cons, hp] using ih
    · simpa [removeTrade, List.filter_cons, hp, lookupTrade] using ih

theorem lookupTrade_remove_ne (ts : List (String × Trade)) (s sym : String) (h : s ≠ sym) :
    lookupTrade (removeTrade ts s) sym = lookupTrade ts sym := by
  induction ts with
  | nil => rfl
  | cons p rest ih =>
    by_cases hp : (p.fst == s) = true
    · have hps : (p.fst == sym) = false := by
        have := eq_of_beq hp
        simp [this, h]
      simp [removeTrade, List.filter_cons, hp, lookupTrade, hps] at ih ⊢
      exact ih
    · simp only [removeTrade, List.filter_cons, hp, Bool.not_false, if_true]
      by_cases hps : (p.fst == sym) = true
      · simp [lookupTrade, hps]
      · simpa [lookupTrade, hps] using ih

theorem lookupTrade_insert_self (ts : List (String × Trade)) (s : String) (tr : Trade) :
    lookupTrade (insertTrade ts s tr) s = some tr := by
  simp [insertTrade, lookupTrade]

theorem lookupTrade_insert_ne (ts : List (String × Trade)) (s sym : String) (tr : Trade)
    (h : s ≠ sym) : lookupTrade (insertTrade ts s tr) sym = lookupTrade ts sym := by
  have hs : (s == sym) = false := by simp [h]
  simp [insertTrade, lookupTrade, hs, lookupTrade_remove_ne ts s sym h]

theorem lookupTrade_mem : ∀ (ts : List (String × Trade)) (sym : String) (tr : Trade),
    lookupTrade ts sym = some tr → (sym, tr) ∈ ts
  | [], _, _, h => by simp [lookupTrade] at h
  | (s, tr0) :: rest, sym, tr, h => by
    by_cases hp : (s == sym) = true
    · have hse := eq_of_beq hp
      simp only [lookupTrade, hp, if_true] at h
      subst hse
      obtain rfl : tr0 = tr := by injection h
      exact List.mem_cons_self _ _
    · simp only [lookupTrade, hp, if_false] at h
      exact List.mem_cons_of_mem _ (lookupTrade_mem rest sym tr h)

theorem invB_sent {today : Nat} {st : EngineState} {sym : String} {tr : Trade}
    (hi : invB today st = true) (hl : lookupTrade st.openTrades sym = some tr) :
    sentMem st.sentToday sym today = true := by
  have hm := lookupTrade_mem _ _ _ hl
  have := List.all_eq_true.mp hi _ hm
  simpa using this

/-! ## Characterization of the buy logic and of the fixed evaluator -/

/-- Every run of `buyFixed` either changes nothing and emits no entry or
exit, or emits an entry with all the guards of lines 167-187 established
and the state updates of lines 200-206 applied. -/
theorem buyFixed_elim (today : Nat) (st : EngineState) (sym : String)
    (day : List Candle) (last : Candle) :
    (IsEntryB (buyFixed today st sym day last).1 = false ∧
     IsExitB (buyFixed today st sym day last).1 = false ∧
     (buyFixed today st sym day last).2 = st) ∨
    (∃ v, sentMem st.sentToday sym today = false ∧
       (orbOf day).isEmpty = false ∧
       ¬ ((orbHighOf day - orbLowOf day) / orbLowOf day * 100 < MIN_ORB_PCT) ∧
       (ORB_END < last.time ∧ last.time ≤ NO_ENTRY_AFTER) ∧
       vwapAt day (day.length - 2) = some v ∧
       orbHighOf day < last.close ∧ v < last.close ∧
       buyFixed today st sym day last =
         (.entrySignal last.time last.close (max (orbLowOf day) v)
            (last.close + RR * (last.close - max (orbLowOf day) v)),
          ⟨(sym, today) :: st.sentToday,
           insertTrade st.openTrades sym
             ⟨last.close, max (orbLowOf day) v,
              last.close + RR * (last.close - max (orbLowOf day) v)⟩⟩)) := by
  unfold buyFixed
  split
  · exact Or.inl ⟨rfl, rfl, rfl⟩
  next hsent =>
    split
    · exact Or.inl ⟨rfl, rfl, rfl⟩
    next horb =>
      split
      · exact Or.inl ⟨rfl, rfl, rfl⟩
      next hpct =>
        split
        · exact Or.inl ⟨rfl, rfl, rfl⟩
        next htime =>
          split
          next hhigh =>
            split
            · exact Or.inl ⟨rfl, rfl, rfl⟩
            next v hv =>
              split
              next hvlt =>
                refine Or.inr ⟨v, ?_, ?_, hpct, not_not.mp htime, hv, hhigh, hvlt, rfl⟩
                · simpa using hsent
                · simpa using horb
              · exact Or.inl ⟨rfl, rfl, rfl⟩
          · exact Or.inl ⟨rfl, rfl, rfl⟩

/-- Every per-symbol pass of the fixed evaluator falls in one of three
classes: no entry or exit and state untouched; an exit of the open trade
with the trade removed and the sent registry untouched; or an entry with
the key freshly registered and the trade stored. -/
theorem evalF_elim (today : Nat) (st : EngineState) (sym : String) (candles : List Candle) :
    (IsEntryB (evalSymbolFixed today st sym candles).1 = false ∧
     IsExitB (evalSymbolFixed today st sym candles).1 = false ∧
     (evalSymbolFixed today st sym candles).2 = st) ∨
    (IsExitB (evalSymbolFixed today st sym candles).1 = true ∧
     lookupTrade st.openTrades sym ≠ none ∧
     (evalSymbolFixed today st sym candles).2 =
       ⟨st.sentToday, removeTrade st.openTrades sym⟩) ∨
    (IsEntryB (evalSymbolFixed today st sym candles).1 = true ∧
     sentMem st.sentToday sym today = false ∧
     ∃ e s tg, (evalSymbolFixed today st sym candles).2 =
       ⟨(sym, today) :: st.sentToday, insertTrade st.openTrades sym ⟨e, s, tg⟩⟩) := by
  unfold evalSymbolFixed
  split
  · exact Or.inl ⟨rfl, rfl, rfl⟩
  · split
    · exact Or.inl ⟨rfl, rfl, rfl⟩
    · split
      · exact Or.inl ⟨rfl, rfl, rfl⟩
      next last hlast =>
        split
        next trade htr =>
          split
          · exact Or.inr (Or.inl ⟨rfl, by simp [htr], rfl⟩)
          · split
            · exact Or.inr (Or.inl ⟨rfl, by simp [htr], rfl⟩)
            · rcases buyFixed_elim today st sym (dayOf today candles) last with
                ⟨h1, h2, h3⟩ | ⟨v, _, _, _, _, _, _, _, heq⟩
              · exact Or.inl ⟨h1, h2, h3⟩
              · refine Or.inr (Or.inr ?_)
                rw [heq]
                exact ⟨rfl, by
                  rcases buyFixed_elim today st sym (dayOf today candles) last with
                    ⟨h1, _, _⟩ | ⟨v2, hs, _⟩
                  · rw [heq] at h1; simp [IsEntryB] at h1
                  · exact hs, _, _, _, rfl⟩
        next htr =>
          rcases buyFixed_elim today st sym (dayOf today candles) last with
            ⟨h1, h2, h3⟩ | ⟨v, hs, _, _, _, _, _, _, heq⟩
          · exact Or.inl ⟨h1, h2, h3⟩
          · refine Or.inr (Or.inr ?_)
            rw [heq]
            exact ⟨rfl, hs, _, _, _, rfl⟩

/-- Inversion of an entry event of the fixed evaluator: it determines the
last closed candle and the vwap value, establishes every guard of lines
167-187, and fixes every emitted value and the state update to the
formulas of lines 188-206. -/
theorem evalF_entry_elim {today : Nat} {st : EngineState} {sym : String}
    {candles : List Candle} {t : Nat} {e s tg : ℚ} {st1 : EngineState}
    (h : evalSymbolFixed today st sym candles = (.entrySignal t e s tg, st1)) :
    ∃ last v,
      (dayOf today candles).dropLast.getLast? = some last ∧
      sentMem st.sentToday sym today = false ∧
      (orbOf (dayOf today candles)).isEmpty = false ∧
      ¬ ((orbHighOf (dayOf today candles) - orbLowOf (dayOf today candles)) /
          orbLowOf (dayOf today candles) * 100 < MIN_ORB_PCT) ∧
      (ORB_END < last.time ∧ last.time ≤ NO_ENTRY_AFTER) ∧
      vwapAt (dayOf today candles) ((dayOf today candles).length - 2) = some v ∧
      orbHighOf (dayOf today candles) < last.close ∧ v < last.close ∧
      t = last.time ∧ e = last.close ∧ s = max (orbLowOf (dayOf today candles)) v ∧
      tg = last.close + RR * (last.close - s) ∧
      st1 = ⟨(sym, today) :: st.sentToday, insertTrade st.openTrades sym ⟨e, s, tg⟩⟩ := by
  unfold evalSymbolFixed at h
  split at h
  · simp at h
  · split at h
    · simp at h
    · split at h
      · simp at h
      next last hlast =>
        have hbuy : buyFixed today st sym (dayOf today candles) last =
            (.entrySignal t e s tg, st1) := by
          split at h
          · split at h
            · simp at h
            · split at h
              · simp at h
              · exact h
          · exact h
        rcases buyFixed_elim today st sym (dayOf today candles) last with
          ⟨h1, _, _⟩ | ⟨v, hs1, hs2, hs3, hs4, hs5, hs6, hs7, heq⟩
        · rw [hbuy] at h1; simp [IsEntryB] at h1
        · rw [hbuy] at heq
          obtain ⟨ho, hst⟩ := Prod.mk.inj heq.symm
          obtain ⟨ht, he, hsl, htg⟩ := Outcome.entrySignal.inj ho.symm
          refine ⟨last, v, hlast, hs1, hs2, hs3, hs4, hs5, hs6, hs7,
            ht, he, hsl, ?_, ?_⟩
          · rw [htg, hsl]
          · rw [hst.symm, he, hsl, htg]

/-! ## Lemmas about the per-symbol step with exceptions -/

theorem IsEntryB_not_exit {o : Outcome} (h : IsEntryB o = true) : IsExitB o = false := by
  cases o <;> simp [IsEntryB, IsExitB] at h ⊢

/-- A raised exception leaves the state as it was: every raise point in the
loop body precedes the state mutation that would have followed it. -/
theorem evalExc_exc (f : Evaluator) (today : Nat) (st : EngineState) (inp : SymInput)
    (st1 : EngineState) (h : evalExcWith f today st inp = .exc st1) : st1 = st := by
  unfold evalExcWith at h
  split at h
  · split at h <;> try split at h
    all_goals first
      | (injection h with h2; exact h2.symm)
      | simp at h
  · injection h with h2; exact h2.symm

/-- A normal step is exactly one evaluator pass. -/
theorem evalExc_ok (f : Evaluator) (today : Nat) (st : EngineState) (inp : SymInput)
    (o : Outcome) (st1 : EngineState) (h : evalExcWith f today st inp = .ok o st1) :
    f today st inp.sym inp.candles = (o, st1) := by
  unfold evalExcWith at h
  split at h
  · split at h <;> try split at h
    all_goals first
      | (injection h with h1 h2; subst h1; subst h2; assumption)
      | simp at h
  · simp at h

/-- Sent-registry membership is monotone along a normal step of the fixed
evaluator. -/
theorem stepF_sent_mono {today : Nat} {st : EngineState} {inp : SymInput}
    {o : Outcome} {st1 : EngineState} {s : String} {d : Nat}
    (hstep : evalExcWith evalSymbolFixed today st inp = .ok o st1)
    (h : sentMem st.sentToday s d = true) : sentMem st1.sentToday s d = true := by
  have heval := evalExc_ok _ _ _ _ _ _ hstep
  rcases evalF_elim today st inp.sym inp.candles with
    ⟨_, _, h3⟩ | ⟨_, _, h3⟩ | ⟨_, _, e, sl, tg, h3⟩ <;> rw [heval] at h3
  · have h4 : st1 = st := h3
    rw [h4]; exact h
  · have h4 : st1 = ⟨st.sentToday, removeTrade st.openTrades inp.sym⟩ := h3
    rw [h4]; exact h
  · have h4 : st1 = ⟨(inp.sym, today) :: st.sentToday,
      insertTrade st.openTrades inp.sym ⟨e, sl, tg⟩⟩ := h3
    rw [h4]; exact sentMem_cons_of _ h

/-- An entry step for `sym` requires the key to be absent and records it. -/
theorem stepF_entry {today : Nat} {st : EngineState} {inp : SymInput}
    {o : Outcome} {st1 : EngineState} {sym : String}
    (hstep : evalExcWith evalSymbolFixed today st inp = .ok o st1)
    (he : isEntryFor sym (inp.sym, o) = true) :
    sentMem st.sentToday sym today = false ∧ sentMem st1.sentToday sym today = true := by
  have heval := evalExc_ok _ _ _ _ _ _ hstep
  have hsym : inp.sym = sym := by
    have := (Bool.and_eq_true _ _).mp he
    exact eq_of_beq this.1
  have hent : IsEntryB o = true := ((Bool.and_eq_true _ _).mp he).2
  rcases evalF_elim today st inp.sym inp.candles with
    ⟨h1, _, _⟩ | ⟨h1, _, _⟩ | ⟨_, h2, e, sl, tg, h3⟩ <;> rw [heval] at *
  · have h1a : IsEntryB o = false := h1
    rw [hent] at h1a; cases h1a
  · have h1a : IsExitB o = true := h1
    rw [IsEntryB_not_exit hent] at h1a; cases h1a
  · have h4 : st1 = ⟨(inp.sym, today) :: st.sentToday,
      insertTrade st.openTrades inp.sym ⟨e, sl, tg⟩⟩ := h3
    subst hsym
    exact ⟨h2, by rw [h4]; exact sentMem_cons_self _ _ _⟩

/-! ## Counting entry events in a trace -/

theorem count_nil (sym : String) : countEntriesFor sym [] = 0 := rfl

theorem count_cons (sym : String) (x : String × Outcome) (tr : List (String × Outcome)) :
    countEntriesFor sym (x :: tr) =
      (if isEntryFor sym x = true then 1 else 0) + countEntriesFor sym tr := by
  by_cases h : (x.fst == sym && IsEntryB x.snd) = true
  · have h2 : isEntryFor sym x = true := h
    simp [countEntriesFor, List.filter_cons, h, h2, Nat.add_comm]
  · have h2 : isEntryFor sym x = false := by simpa [isEntryFor] using h
    simp [countEntriesFor, List.filter_cons, h, h2]

theorem count_append (sym : String) (a b : List (String × Outcome)) :
    countEntriesFor sym (a ++ b) = countEntriesFor sym a + countEntriesFor sym b := by
  simp [countEntriesFor, List.filter_append]

/-! ## Once the key is registered, no further entry for the symbol -/

/-- Within one cycle of the fixed evaluator: if the `(sym, today)` key is
already registered, the cycle emits no entry for `sym` and the key stays
registered. -/
theorem cycleF_sent (today : Nat) (sym : String) :
    ∀ (inps : List SymInput) (st : EngineState),
      sentMem st.sentToday sym today = true →
      countEntriesFor sym (runCycleWith evalSymbolFixed today st inps).1 = 0 ∧
      sentMem (runCycleWith evalSymbolFixed today st inps).2.1.sentToday sym today = true
  | [], st, h => by simpa [runCycleWith, count_nil] using h
  | inp :: rest, st, h => by
    cases hstep : evalExcWith evalSymbolFixed today st inp with
    | exc st1 =>
      have hst := evalExc_exc _ _ _ _ _ hstep
      subst hst
      simpa [runCycleWith, hstep, count_nil] using h
    | ok o st1 =>
      have hmono := stepF_sent_mono hstep h
      have hne : isEntryFor sym (inp.sym, o) = false := by
        cases hc : isEntryFor sym (inp.sym, o) with
        | false => rfl
        | true =>
          have := (stepF_entry hstep hc).1
          rw [this] at h; cases h
      have ih := cycleF_sent today sym rest st1 hmono
      simp only [runCycleWith, hstep]
      refine ⟨?_, ih.2⟩
      rw [count_cons, hne]
      simpa using ih.1

/-- Within one cycle of the fixed evaluator: at most one entry for any
symbol, and an entry leaves the key registered. -/
theorem cycleF_count (today : Nat) (sym : String) :
    ∀ (inps : List SymInput) (st : EngineState),
      countEntriesFor sym (runCycleWith evalSymbolFixed today st inps).1 ≤ 1 ∧
      (1 ≤ countEntriesFor sym (runCycleWith evalSymbolFixed today st inps).1 →
        sentMem (runCycleWith evalSymbolFixed today st inps).2.1.sentToday sym today = true)
  | [], st => by simp [runCycleWith, count_nil]
  | inp :: rest, st => by
    cases hstep : evalExcWith evalSymbolFixed today st inp with
    | exc st1 =>
      simp [runCycleWith, hstep, count_nil]
    | ok o st1 =>
      cases hc : isEntryFor sym (inp.sym, o) with
      | true =>
        have hsent1 := (stepF_entry hstep hc).2
        have hrest := cycleF_sent today sym rest st1 hsent1
        simp only [runCycleWith, hstep]
        constructor
        · rw [count_cons, hc, hrest.1]; simp
        · intro _; exact hrest.2
      | false =>
        have ih := cycleF_count today sym rest st1
        simp only [runCycleWith, hstep]
        constructor
        · rw [count_cons, hc]; simpa using ih.1
        · rw [count_cons, hc]; simpa using ih.2

/-- Across the whole run: once registered, never another entry. -/
theorem loopF_sent (today : Nat) (sym : String) :
    ∀ (css : List (List SymInput)) (st : EngineState),
      sentMem st.sentToday sym today = true →
      countEntriesFor sym (runAllWith evalSymbolFixed today st css).1 = 0 ∧
      sentMem (runAllWith evalSymbolFixed today st css).2.sentToday sym today = true
  | [], st, h => by simpa [runAllWith, count_nil] using h
  | cyc :: rest, st, h => by
    have hcyc := cycleF_sent today sym cyc st h
    have ih := loopF_sent today sym rest (runCycleWith evalSymbolFixed today st cyc).2.1 hcyc.2
    simp only [runAllWith]
    rw [count_append, hcyc.1, ih.1]
    exact ⟨rfl, ih.2⟩

/-- Across the whole run of the fixed evaluator: at most one entry event
per symbol. -/
theorem loopF_count (today : Nat) (sym : String) :
    ∀ (css : List (List SymInput)) (st : EngineState),
      countEntriesFor sym (runAllWith evalSymbolFixed today st css).1 ≤ 1
  | [], st => by simp [runAllWith, count_nil]
  | cyc :: rest, st => by
    have hcyc := cycleF_count today sym cyc st
    have ih := loopF_count today sym rest (runCycleWith evalSymbolFixed today st cyc).2.1
    simp only [runAllWith]
    rw [count_append]
    rcases Nat.le_one_iff_eq_zero_or_eq_one.mp hcyc.1 with h0 | h1
    · rw [h0]; simpa using ih
    · rw [h1]
      have hs := hcyc.2 (by rw [h1])
      have hz := (loopF_sent today sym rest _ hs).1
      rw [hz]

/-! ## After an exit, the symbol is quiet for the rest of the day -/

theorem isEventFor_false_of {sym s : String} {o : Outcome}
    (h : (s == sym) = false ∨ (IsExitB o = false ∧ IsEntryB o = false)) :
    isEventFor sym (s, o) = false := by
  rcases h with h | ⟨h1, h2⟩
  · simp [isEventFor, isExitFor, isEntryFor, h]
  · simp [isEventFor, isExitFor, isEntryFor, h1, h2]

/-- A dead symbol (flat, key registered) stays dead across any normal step
of the fixed evaluator, and the step emits no exit or entry for it. -/
theorem stepF_dead {today : Nat} {st : EngineState} {inp : SymInput}
    {o : Outcome} {st1 : EngineState} {sym : String}
    (hd : Dead sym today st)
    (hstep : evalExcWith evalSymbolFixed today st inp = .ok o st1) :
    Dead sym today st1 ∧ isEventFor sym (inp.sym, o) = false := by
  have heval := evalExc_ok _ _ _ _ _ _ hstep
  cases hsym : inp.sym == sym with
  | true =>
    have hsym2 : inp.sym = sym := eq_of_beq hsym
    rcases evalF_elim today st inp.sym inp.candles with
      ⟨h1, h2, h3⟩ | ⟨_, h2, _⟩ | ⟨_, h2, _⟩ <;> rw [heval] at *
    · have h4 : st1 = st := h3
      have h1a : IsEntryB o = false := h1
      have h2a : IsExitB o = false := h2
      exact ⟨h4 ▸ hd, isEventFor_false_of (Or.inr ⟨h2a, h1a⟩)⟩
    · rw [hsym2] at h2
      exact absurd hd.1 h2
    · rw [hsym2] at h2
      rw [hd.2] at h2; cases h2
  | false =>
    have hne : inp.sym ≠ sym := by simpa using hsym
    have hev : isEventFor sym (inp.sym, o) = false := isEventFor_false_of (Or.inl hsym)
    rcases evalF_elim today st inp.sym inp.candles with
      ⟨_, _, h3⟩ | ⟨_, _, h3⟩ | ⟨_, _, e, sl, tg, h3⟩ <;> rw [heval] at h3
    · have h4 : st1 = st := h3
      exact ⟨h4 ▸ hd, hev⟩
    · have h4 : st1 = ⟨st.sentToday, removeTrade st.openTrades inp.sym⟩ := h3
      refine ⟨⟨?_, ?_⟩, hev⟩
      · rw [h4]; exact (lookupTrade_remove_ne _ _ _ hne).trans hd.1
      · rw [h4]; exact hd.2
    · have h4 : st1 = ⟨(inp.sym, today) :: st.sentToday,
        insertTrade st.openTrades inp.sym ⟨e, sl, tg⟩⟩ := h3
      refine ⟨⟨?_, ?_⟩, hev⟩
      · rw [h4]; exact (lookupTrade_insert_ne _ _ _ _ hne).trans hd.1
      · rw [h4]; exact sentMem_cons_of _ hd.2

/-- An exit step for `sym` from an invariant state leaves the symbol
dead: the trade is removed and (by the invariant) the key was already
registered. -/
theorem stepF_exit_dead {today : Nat} {st : EngineState} {inp : SymInput}
    {o : Outcome} {st1 : EngineState} {sym : String}
    (hi : invB today st = true)
    (hstep : evalExcWith evalSymbolFixed today st inp = .ok o st1)
    (hex : isExitFor sym (inp.sym, o) = true) : Dead sym today st1 := by
  have heval := evalExc_ok _ _ _ _ _ _ hstep
  have hsym : inp.sym = sym := by
    have := (Bool.and_eq_true _ _).mp hex
    exact eq_of_beq this.1
  have hexo : IsExitB o = true := ((Bool.and_eq_true _ _).mp hex).2
  rcases evalF_elim today st inp.sym inp.candles with
    ⟨_, h2, _⟩ | ⟨_, h2, h3⟩ | ⟨h1, _, _⟩ <;> rw [heval] at *
  · have h2a : IsExitB o = false := h2
    rw [hexo] at h2a; cases h2a
  · obtain ⟨tr, htr⟩ := Option.ne_none_iff_exists'.mp h2
    have hsent := invB_sent hi htr
    have h4 : st1 = ⟨st.sentToday, removeTrade st.openTrades inp.sym⟩ := h3
    subst hsym
    exact ⟨by rw [h4]; exact lookupTrade_remove_self _ _, by rw [h4]; exact hsent⟩
  · have h1a : IsEntryB o = true := h1
    rw [IsEntryB_not_exit h1a] at hexo; cases hexo

/-- The state invariant (every open trade's key is registered) is preserved
by a normal step of the fixed evaluator. -/
theorem stepF_inv {today : Nat} {st : EngineState} {inp : SymInput}
    {o : Outcome} {st1 : EngineState}
    (hi : invB today st = true)
    (hstep : evalExcWith evalSymbolFixed today st inp = .ok o st1) :
    invB today st1 = true := by
  have heval := evalExc_ok _ _ _ _ _ _ hstep
  rcases evalF_elim today st inp.sym inp.candles with
    ⟨_, _, h3⟩ | ⟨_, _, h3⟩ | ⟨_, _, e, sl, tg, h3⟩ <;> rw [heval] at h3
  · have h4 : st1 = st := h3
    rw [h4]; exact hi
  · have h4 : st1 = ⟨st.sentToday, removeTrade st.openTrades inp.sym⟩ := h3
    rw [h4]
    refine List.all_eq_true.mpr ?_
    intro p hp
    exact List.all_eq_true.mp hi p (List.mem_of_mem_filter hp)
  · have h4 : st1 = ⟨(inp.sym, today) :: st.sentToday,
      insertTrade st.openTrades inp.sym ⟨e, sl, tg⟩⟩ := h3
    rw [h4]
    refine List.all_eq_true.mpr ?_
    intro p hp
    rcases List.mem_cons.mp hp with hp1 | hp2
    · rw [hp1]; exact sentMem_cons_self _ _ _
    · exact sentMem_cons_of _
        (List.all_eq_true.mp hi p (List.mem_of_mem_filter hp2))

/-- Within one cycle: a dead symbol stays dead and produces no exit or
entry event. -/
theorem cycleF_dead (today : Nat) (sym : String) :
    ∀ (inps : List SymInput) (st : EngineState), Dead sym today st →
      (runCycleWith evalSymbolFixed today st inps).1.all
        (fun x => !(isEventFor sym x)) = true ∧
      Dead sym today (runCycleWith evalSymbolFixed today st inps).2.1
  | [], st, hd => by simpa [runCycleWith] using hd
  | inp :: rest, st, hd => by
    cases hstep : evalExcWith evalSymbolFixed today st inp with
    | exc st1 =>
      have hst := evalExc_exc _ _ _ _ _ hstep
      subst hst
      simpa [runCycleWith, hstep] using hd
    | ok o st1 =>
      have hsd := stepF_dead hd hstep
      have ih := cycleF_dead today sym rest st1 hsd.1
      simp only [runCycleWith, hstep, List.all_cons]
      exact ⟨by rw [hsd.2]; simpa using ih.1, ih.2⟩

/-- Within one cycle: the invariant is preserved. -/
theorem cycleF_inv (today : Nat) :
    ∀ (inps : List SymInput) (st : EngineState), invB today st = true →
      invB today (runCycleWith evalSymbolFixed today st inps).2.1 = true
  | [], st, hi => by simpa [runCycleWith] using hi
  | inp :: rest, st, hi => by
    cases hstep : evalExcWith evalSymbolFixed today st inp with
    | exc st1 =>
      have hst := evalExc_exc _ _ _ _ _ hstep
      subst hst
      simpa [runCycleWith, hstep] using hi
    | ok o st1 =>
      have ih := cycleF_inv today rest st1 (stepF_inv hi hstep)
      simpa [runCycleWith, hstep] using ih

/-- Within one cycle: everything after an exit event for `sym` is quiet
for `sym`, and the symbol ends the cycle dead. -/
theorem cycleF_exit (today : Nat) (sym : String) :
    ∀ (inps : List SymInput) (st : EngineState), invB today st = true →
      ∀ (pre : List (String × Outcome)) (e : String × Outcome)
        (post : List (String × Outcome)),
        (runCycleWith evalSymbolFixed today st inps).1 = pre ++ e :: post →
        isExitFor sym e = true →
        post.all (fun x => !(isEventFor sym x)) = true ∧
        Dead sym today (runCycleWith evalSymbolFixed today st inps).2.1
  | [], st, _, pre, e, post, htr, _ => by simp [runCycleWith] at htr
  | inp :: rest, st, hi, pre, e, post, htr, hex => by
    cases hstep : evalExcWith evalSymbolFixed today st inp with
    | exc st1 => simp [runCycleWith, hstep] at htr
    | ok o st1 =>
      have hinv1 := stepF_inv hi hstep
      simp only [runCycleWith, hstep] at htr ⊢
      cases pre with
      | nil =>
        simp only [List.nil_append] at htr
        obtain ⟨he, hpost⟩ := List.cons.inj htr
        have hd1 : Dead sym today st1 := stepF_exit_dead hi hstep (he ▸ hex)
        have hrest := cycleF_dead today sym rest st1 hd1
        rw [hpost] at hrest
        exact ⟨hrest.1, hrest.2⟩
      | cons p pre1 =>
        simp only [List.cons_append] at htr
        obtain ⟨_, htr1⟩ := List.cons.inj htr
        exact cycleF_exit today sym rest st1 hinv1 pre1 e post htr1 hex

/-- Across the rest of the run: a dead symbol stays quiet. -/
theorem loopF_dead (today : Nat) (sym : String) :
    ∀ (css : List (List SymInput)) (st : EngineState), Dead sym today st →
      (runAllWith evalSymbolFixed today st css).1.all
        (fun x => !(isEventFor sym x)) = true ∧
      Dead sym today (runAllWith evalSymbolFixed today st css).2
  | [], st, hd => by simpa [runAllWith] using hd
  | cyc :: rest, st, hd => by
    have hcyc := cycleF_dead today sym cyc st hd
    have ih := loopF_dead today sym rest _ hcyc.2
    simp only [runAllWith, List.all_append]
    exact ⟨by rw [hcyc.1]; simpa using ih.1, ih.2⟩

/-- Across the whole run of the fixed evaluator, from any invariant state:
everything after an exit event for `sym` is quiet for `sym` — no second
exit and no entry for the rest of the day. -/
theorem loopF_exit (today : Nat) (sym : String) :
    ∀ (css : List (List SymInput)) (st : EngineState), invB today st = true →
      ∀ (pre : List (String × Outcome)) (e : String × Outcome)
        (post : List (String × Outcome)),
        (runAllWith evalSymbolFixed today st css).1 = pre ++ e :: post →
        isExitFor sym e = true →
        post.all (fun x => !(isEventFor sym x)) = true
  | [], st, _, pre, e, post, htr, _ => by simp [runAllWith] at htr
  | cyc :: rest, st, hi, pre, e, post, htr, hex => by
    have hinv1 := cycleF_inv today cyc st hi
    simp only [runAllWith] at htr
    rcases List.append_eq_append_iff.mp htr with ⟨as, hpre, ht2⟩ | ⟨cs, ht1, hd⟩
    · exact loopF_exit today sym rest _ hinv1 as e post ht2 hex
    · cases cs with
      | nil =>
        simp only [List.nil_append] at hd
        exact loopF_exit today sym rest _ hinv1 [] e post hd.symm hex
      | cons c0 cs1 =>
        simp only [List.cons_append] at hd
        obtain ⟨hc0, hpost⟩ := List.cons.inj hd
        subst hc0
        have hcyc := cycleF_exit today sym cyc st hi pre e cs1 (by rw [ht1]) hex
        have hrest := loopF_dead today sym rest _ hcyc.2
        rw [hpost, List.all_append]
        rw [hcyc.1]
        simpa using hrest.1

/-! ## Guard-walking helpers for the faithful evaluator -/

theorem isEmpty_false_of_getLast?_dropLast {l : List Candle} {x : Candle}
    (h : l.dropLast.getLast? = some x) : l.isEmpty = false := by
  cases l with
  | nil => simp at h
  | cons a t => rfl

/-- With enough candles, a last closed candle, and no open trade, the loop
body is exactly the buy logic. -/
theorem evalSymbol_buy (today : Nat) (st : EngineState) (sym : String)
    (candles : List Candle) (last : Candle)
    (hlen : ¬ candles.length < 20)
    (hlast : (dayOf today candles).dropLast.getLast? = some last)
    (hlook : lookupTrade st.openTrades sym = none) :
    evalSymbol today st sym candles = buyFaithful today st sym (dayOf today candles) last := by
  have hne := isEmpty_false_of_getLast?_dropLast hlast
  unfold evalSymbol
  rw [if_neg hlen, if_neg (by simp [hne]), hlast, hlook]

/-- Once the sent-registry and orb-nonempty guards pass, the faithful buy
logic skips with `skipOrbPct` exactly when the range-to-low percentage is
strictly below `MIN_ORB_PCT`. -/
theorem buyFaithful_orbPct (today : Nat) (st : EngineState) (sym : String)
    (day : List Candle) (last : Candle)
    (hsent : sentMem st.sentToday sym today = false)
    (horb : (orbOf day).isEmpty = false) :
    (buyFaithful today st sym day last = (.skipOrbPct, st) ↔
     (orbHighOf day - orbLowOf day) / orbLowOf day * 100 < MIN_ORB_PCT) := by
  unfold buyFaithful
  rw [if_neg (by simp [hsent]), if_neg (by simp [horb])]
  by_cases hg : (orbHighOf day - orbLowOf day) / orbLowOf day * 100 < MIN_ORB_PCT
  · simp [hg]
  · rw [if_neg hg]
    simp only [hg, iff_false]
    intro hcontra
    split at hcontra
    · simp at hcontra
    · split at hcontra <;> simp at hcontra

/-- A raised exception ends the cycle with no outcome for the remaining
symbols, and the outer loop resumes with the next cycle from the state at
the raise point. -/
theorem runAll_exc (f : Evaluator) (today : Nat) (st st1 : EngineState)
    (inp : SymInput) (rest : List SymInput) (css : List (List SymInput))
    (h : evalExcWith f today st inp = .exc st1) :
    runCycleWith f today st (inp :: rest) = ([], st1, true) ∧
    runAllWith f today st ((inp :: rest) :: css) = runAllWith f today st1 css := by
  constructor
  · simp [runCycleWith, h]
  · simp [runAllWith, runCycleWith, h]

/-! ## The claims -/

/-- Claim C1 (code_bug): at an input satisfying all four entry
preconditions — key not sent, valid opening range, last closed candle in
the entry window, close above both the range high and the vwap — the
source raises KeyError on the `last["vwap"]` read (the row snapshot of
line 138 predates the vwap column of line 182) instead of emitting the
entry event; with the intended vwap read the entry fires with exactly the
specified values `sl = max(orb.low, vwap)`, `target = close + 2 * (close - sl)`,
the trade registered and the key added. -/
theorem claim_c1_entry_raises :
    sentMem st0.sentToday "TCS" 1 = false ∧
    (orbOf (dayOf 1 cs1)).isEmpty = false ∧
    ¬ ((orbHighOf (dayOf 1 cs1) - orbLowOf (dayOf 1 cs1)) / orbLowOf (dayOf 1 cs1) * 100
        < MIN_ORB_PCT) ∧
    (dayOf 1 cs1).dropLast.getLast? = some (mkC 1 575 103 101 103 1) ∧
    (ORB_END < 575 ∧ 575 ≤ NO_ENTRY_AFTER) ∧
    vwapAt (dayOf 1 cs1) ((dayOf 1 cs1).length - 2) = some (911/9) ∧
    orbHighOf (dayOf 1 cs1) < 103 ∧ ((911 : ℚ)/9) < 103 ∧
    evalSymbol 1 st0 "TCS" cs1 = (.errorVwapKey, st0) ∧
    evalSymbolFixed 1 st0 "TCS" cs1 =
      (.entrySignal 575 103 (911/9) (959/9),
       ⟨[("TCS", 1)], [("TCS", ⟨103, 911/9, 959/9⟩)]⟩) := by
  norm_num [evalSymbol, evalSymbolFixed, buyFaithful, buyFixed, dayOf, orbOf,
    orbHighOf, orbLowOf, listMax, listMin, tp, vwapAt, sentMem, lookupTrade,
    insertTrade, removeTrade, cs1, fillers, mkC, st0,
    ORB_START, ORB_END, NO_ENTRY_AFTER, MIN_ORB_PCT, RR,
    List.filter_cons, List.filter_nil, List.dropLast, List.getLast?,
    List.take, List.map_cons, List.map_nil, List.sum_cons, List.sum_nil]

/-- Claim C2, counterexample: a failed notification send for the first
symbol's exit alert raises past the send call site and aborts the whole
cycle — the second symbol is never evaluated (empty outcome list, aborted
flag set) and even the first symbol's trade removal is lost. -/
theorem claim_c2_counterexample :
    runCycleWith evalSymbol 1 stT
      [⟨"TCS", csX, true, false⟩, ⟨"INFY", cs1, true, true⟩] = ([], stT, true) := by
  decide

/-- Claim C2, amended: a failure of a data fetch or of a notification send
raises to the top-level handler: the remaining symbols of the current
cycle are skipped (the cycle ends with no further outcomes, aborted), and
the loop continues with the next cycle from the state at the raise
point. -/
theorem claim_c2_amended (today : Nat) (st st1 : EngineState)
    (inp : SymInput) (rest : List SymInput) (css : List (List SymInput))
    (h : evalExcWith evalSymbol today st inp = .exc st1) :
    runCycleWith evalSymbol today st (inp :: rest) = ([], st1, true) ∧
    runAllWith evalSymbol today st ((inp :: rest) :: css) =
      runAllWith evalSymbol today st1 css :=
  runAll_exc evalSymbol today st st1 inp rest css h

/-- Witness for the amended claim C2 at a concrete failed fetch. -/
theorem claim_c2_amended_witness :
    runCycleWith evalSymbol 1 st0
      [⟨"TCS", [], false, true⟩, ⟨"INFY", cs1, true, true⟩] = ([], st0, true) ∧
    runAllWith evalSymbol 1 st0
      [[⟨"TCS", [], false, true⟩, ⟨"INFY", cs1, true, true⟩],
       [⟨"INFY", cs1, true, true⟩]] =
      runAllWith evalSymbol 1 st0 [[⟨"INFY", cs1, true, true⟩]] :=
  claim_c2_amended 1 st0 st0 ⟨"TCS", [], false, true⟩
    [⟨"INFY", cs1, true, true⟩] [[⟨"INFY", cs1, true, true⟩]] (by decide)

/-- Claim C3: over any whole run (any cycles, any inputs, any start
state), at most one entry event is ever emitted for a symbol: the first
entry records the `(sym, date)` key in the sent registry, the key is never
removed, and the buy path requires it absent. -/
theorem claim_c3_at_most_one_entry (today : Nat) (st : EngineState)
    (css : List (List SymInput)) (sym : String) :
    countEntriesFor sym (runAllWith evalSymbolFixed today st css).1 ≤ 1 :=
  loopF_count today sym css st

/-- Claim C4: with a trade open for the symbol (and its day key
registered, as in every reachable state), a pass over a last closed candle
resolves to exactly one of the three outcomes: close at or above target
gives the target-hit exit and removes the trade (this branch wins even if
the close is also at or below the stop); otherwise close at or below the
stop gives the stop-hit exit and removes the trade; otherwise the pass
changes nothing (the buy path is blocked by the sent key). -/
theorem claim_c4_exit_trichotomy (today : Nat) (st : EngineState) (sym : String)
    (candles : List Candle) (tr : Trade) (last : Candle)
    (htr : lookupTrade st.openTrades sym = some tr)
    (hsent : sentMem st.sentToday sym today = true)
    (hlen : ¬ candles.length < 20)
    (hlast : (dayOf today candles).dropLast.getLast? = some last) :
    (tr.target ≤ last.close →
       evalSymbol today st sym candles =
         (.exitTarget last.time last.close tr.target,
          ⟨st.sentToday, removeTrade st.openTrades sym⟩)) ∧
    (last.close < tr.target → last.close ≤ tr.sl →
       evalSymbol today st sym candles =
         (.exitStop last.time last.close tr.sl,
          ⟨st.sentToday, removeTrade st.openTrades sym⟩)) ∧
    (last.close < tr.target → tr.sl < last.close →
       evalSymbol today st sym candles = (.skipSent, st)) := by
  have hne := isEmpty_false_of_getLast?_dropLast hlast
  refine ⟨fun h1 => ?_, fun h1 h2 => ?_, fun h1 h2 => ?_⟩
  · simp [evalSymbol, hlen, hne, hlast, htr, h1]
  · simp [evalSymbol, hlen, hne, hlast, htr, not_le.mpr h1, h2]
  · simp [evalSymbol, buyFaithful, hlen, hne, hlast, htr, not_le.mpr h1,
      not_le.mpr h2, hsent]

/-- Witness for claim C4: still-open case at a concrete state and day. -/
theorem claim_c4_witness : evalSymbol 1 stT "TCS" cs1 = (.skipSent, stT) :=
  (claim_c4_exit_trichotomy 1 stT "TCS" cs1 ⟨100, 98, 104⟩ (mkC 1 575 103 101 103 1)
    (by decide) (by decide) (by decide) (by decide)).2.2 (by decide) (by decide)

/-- Claim C5: from any state satisfying the reachable-state invariant
(every open trade's key is registered), once the run's event trace shows an
exit for a symbol, everything after it — later symbols of the same cycle
and all later cycles — contains no further exit and no entry for that
symbol that day. -/
theorem claim_c5_quiet_after_exit (today : Nat) (st : EngineState)
    (css : List (List SymInput)) (sym : String)
    (hinv : invB today st = true) (pre : List (String × Outcome))
    (e : String × Outcome) (post : List (String × Outcome))
    (htr : (runAllWith evalSymbolFixed today st css).1 = pre ++ e :: post)
    (hex : isExitFor sym e = true) :
    post.all (fun x => !(isEventFor sym x)) = true :=
  loopF_exit today sym css st hinv pre e post htr hex

/-- Witness for claim C5: a target exit in cycle one, then a would-be
re-entry in cycle two that the sent registry blocks. -/
theorem claim_c5_witness :
    ([("TCS", Outcome.skipSent)] : List (String × Outcome)).all
      (fun x => !(isEventFor "TCS" x)) = true :=
  claim_c5_quiet_after_exit 1 stT
    [[⟨"TCS", csX, true, true⟩], [⟨"TCS", cs1, true, true⟩]] "TCS"
    (by decide) [] ("TCS", .exitTarget 575 105 104) [("TCS", .skipSent)]
    (by decide) (by decide)

/-- Claim C6: an entry of the (intended) buy path requires a non-empty
opening-range subset whose range-to-low percentage is at least
`MIN_ORB_PCT`; and, guards before it granted, the faithful loop body skips
with the range-too-small outcome exactly when that percentage is strictly
below `MIN_ORB_PCT` — so a percentage of exactly 0.25 passes the gate. -/
theorem claim_c6_orb_gate :
    (∀ (today : Nat) (st : EngineState) (sym : String) (candles : List Candle)
       (t : Nat) (e s tg : ℚ) (st1 : EngineState),
       evalSymbolFixed today st sym candles = (.entrySignal t e s tg, st1) →
       (orbOf (dayOf today candles)).isEmpty = false ∧
       MIN_ORB_PCT ≤ (orbHighOf (dayOf today candles) - orbLowOf (dayOf today candles)) /
         orbLowOf (dayOf today candles) * 100) ∧
    (∀ (today : Nat) (st : EngineState) (sym : String) (candles : List Candle)
       (last : Candle),
       ¬ candles.length < 20 →
       (dayOf today candles).dropLast.getLast? = some last →
       lookupTrade st.openTrades sym = none →
       sentMem st.sentToday sym today = false →
       (orbOf (dayOf today candles)).isEmpty = false →
       (evalSymbol today st sym candles = (.skipOrbPct, st) ↔
        (orbHighOf (dayOf today candles) - orbLowOf (dayOf today candles)) /
          orbLowOf (dayOf today candles) * 100 < MIN_ORB_PCT)) := by
  constructor
  · intro today st sym candles t e s tg st1 h
    obtain ⟨last, v, _, _, hs2, hs3, _⟩ := evalF_entry_elim h
    exact ⟨hs2, not_lt.mp hs3⟩
  · intro today st sym candles last hlen hlast hlook hsent horb
    rw [evalSymbol_buy today st sym candles last hlen hlast hlook]
    exact buyFaithful_orbPct today st sym (dayOf today candles) last hsent horb

/-- Witness for claim C6: a range of exactly 0.25 percent admits an entry,
and a range of 0.1 percent is rejected by the gate. -/
theorem claim_c6_witness :
    ((orbOf (dayOf 1 csB)).isEmpty = false ∧
     MIN_ORB_PCT ≤ (orbHighOf (dayOf 1 csB) - orbLowOf (dayOf 1 csB)) /
       orbLowOf (dayOf 1 csB) * 100) ∧
    evalSymbol 1 st0 "A" csR = (.skipOrbPct, st0) :=
  ⟨claim_c6_orb_gate.1 1 st0 "A" csB 575 402 (2405/6) (1213/3)
     ⟨[("A", 1)], [("A", ⟨402, 2405/6, 1213/3⟩)]⟩
     (by norm_num [evalSymbolFixed, buyFixed, dayOf, orbOf, orbHighOf, orbLowOf,
       listMax, listMin, tp, vwapAt, sentMem, lookupTrade, insertTrade, removeTrade,
       csB, fillers, mkC, st0, ORB_START, ORB_END, NO_ENTRY_AFTER, MIN_ORB_PCT, RR,
       List.filter_cons, List.filter_nil, List.dropLast, List.getLast?,
       List.take, List.map_cons, List.map_nil, List.sum_cons, List.sum_nil]),
   (claim_c6_orb_gate.2 1 st0 "A" csR (mkC 1 575 1002 1000 1002 1)
     (by decide) (by decide) (by decide) (by decide) (by decide)).mpr
     (by norm_num [dayOf, orbOf, orbHighOf, orbLowOf, listMax, listMin,
       csR, fillers, mkC, ORB_START, ORB_END, MIN_ORB_PCT,
       List.filter_cons, List.filter_nil, List.map_cons, List.map_nil])⟩

/-- Claim C7: whenever the (intended) buy path emits an entry on a day of
positive-low candles, the stop-loss is strictly below the entry close
(risk is strictly positive) and the target strictly above it; a setup with
the vwap or the range low at or above the close never enters. -/
theorem claim_c7_positive_risk (today : Nat) (st : EngineState) (sym : String)
    (candles : List Candle) (t : Nat) (e s tg : ℚ) (st1 : EngineState)
    (hpos : ∀ c ∈ candles, 0 < c.low)
    (h : evalSymbolFixed today st sym candles = (.entrySignal t e s tg, st1)) :
    s < e ∧ e < tg := by
  obtain ⟨last, v, _, _, hs2, hs3, _, _, hhigh, hvlt, ht, he, hsl, htg, _⟩ :=
    evalF_entry_elim h
  have horbne : ((orbOf (dayOf today candles)).map (fun c => c.low)) ≠ [] := by
    cases horb : orbOf (dayOf today candles) with
    | nil => rw [horb] at hs2; simp at hs2
    | cons a l => simp
  obtain ⟨c, hcmem, hceq⟩ := List.mem_map.mp (listMin_mem _ horbne)
  have hcand : c ∈ candles :=
    List.mem_of_mem_filter (List.mem_of_mem_filter hcmem)
  have hlowpos : 0 < orbLowOf (dayOf today candles) := by
    rw [orbLowOf, ← hceq]
    exact hpos c hcand
  have hgate := not_lt.mp hs3
  rw [div_mul_eq_mul_div, le_div_iff₀ hlowpos] at hgate
  have hlo_lt_hi : orbLowOf (dayOf today candles) < orbHighOf (dayOf today candles) := by
    rw [MIN_ORB_PCT] at hgate
    nlinarith [hlowpos]
  have hse : s < e := by
    rw [hsl, he]
    exact max_lt (lt_trans hlo_lt_hi hhigh) hvlt
  refine ⟨hse, ?_⟩
  rw [htg, he, RR] at *
  nlinarith [hse]

/-- Witness for claim C7 at the concrete entry of `cs1`. -/
theorem claim_c7_witness : ((911 : ℚ)/9 < 103) ∧ ((103 : ℚ) < 959/9) :=
  claim_c7_positive_risk 1 st0 "TCS" cs1 575 103 (911/9) (959/9)
    ⟨[("TCS", 1)], [("TCS", ⟨103, 911/9, 959/9⟩)]⟩ (by decide)
    (by norm_num [evalSymbolFixed, buyFixed, dayOf, orbOf, orbHighOf, orbLowOf,
      listMax, listMin, tp, vwapAt, sentMem, lookupTrade, insertTrade, removeTrade,
      cs1, fillers, mkC, st0, ORB_START, ORB_END, NO_ENTRY_AFTER, MIN_ORB_PCT, RR,
      List.filter_cons, List.filter_nil, List.dropLast, List.getLast?,
      List.take, List.map_cons, List.map_nil, List.sum_cons, List.sum_nil])

/-- Claim C8: on any non-empty day whose first candle has positive volume,
the vwap value at the first candle is that candle's typical price. -/
theorem claim_c8_vwap_first (c : Candle) (rest : List Candle) (hv : 0 < c.volume) :
    vwapAt (c :: rest) 0 = some (tp c) := by
  unfold vwapAt
  simp only [List.take_succ_cons, List.take_zero, List.map_cons, List.map_nil,
    List.sum_cons, List.sum_nil, add_zero]
  rw [if_neg hv.ne']
  rw [mul_div_assoc, div_self hv.ne', mul_one]

/-- Witness for claim C8 at a concrete candle. -/
theorem claim_c8_witness : vwapAt [mkC 1 555 12 9 9 1] 0 = some 10 := by
  have h := claim_c8_vwap_first (mkC 1 555 12 9 9 1) [] (by norm_num [mkC])
  rw [h]
  norm_num [tp, mkC]

/-- Claim C9 (code_bug): on a day whose cumulative volume is zero, the
code does not skip the symbol: it computes the undefined vwap (`none`,
the float NaN) and still proceeds — in the source as written it then
raises the vwap KeyError on the breakout candle, and with the intended
vwap read the NaN comparison silently evaluates false — in neither case
is the symbol skipped before the comparison. -/
theorem claim_c9_zero_volume :
    ((dayOf 1 cs9).map (fun c => c.volume)).sum = 0 ∧
    vwapAt (dayOf 1 cs9) ((dayOf 1 cs9).length - 2) = none ∧
    evalSymbol 1 st0 "INFY" cs9 = (.errorVwapKey, st0) ∧
    evalSymbolFixed 1 st0 "INFY" cs9 = (.noSignal, st0) := by
  norm_num [evalSymbol, evalSymbolFixed, buyFaithful, buyFixed, dayOf, orbOf,
    orbHighOf, orbLowOf, listMax, listMin, tp, vwapAt, sentMem, lookupTrade,
    cs9, fillers, mkC, st0, ORB_START, ORB_END, NO_ENTRY_AFTER, MIN_ORB_PCT, RR,
    List.filter_cons, List.filter_nil, List.dropLast, List.getLast?,
    List.take, List.map_cons, List.map_nil, List.sum_cons, List.sum_nil]

/-- Claim C10: a current-day subsequence with exactly one candle makes
`day.iloc[-2]` raise IndexError — the cycle is abandoned for the remaining
symbols — while an empty current-day subsequence is only a soft per-symbol
skip after which the cycle continues; a clean evaluation needs at least
two candles dated today. -/
theorem claim_c10_single_candle :
    (∀ (today : Nat) (st : EngineState) (sym : String) (candles : List Candle),
       ¬ candles.length < 20 → (dayOf today candles).length = 1 →
       evalSymbol today st sym candles = (.errorIndex, st)) ∧
    (∀ (today : Nat) (st : EngineState) (sym : String) (candles : List Candle)
       (sOk : Bool) (rest : List SymInput),
       ¬ candles.length < 20 → (dayOf today candles).length = 1 →
       runCycleWith evalSymbol today st (⟨sym, candles, true, sOk⟩ :: rest) =
         ([], st, true)) ∧
    (∀ (today : Nat) (st : EngineState) (sym : String) (candles : List Candle)
       (sOk : Bool) (rest : List SymInput),
       ¬ candles.length < 20 → dayOf today candles = [] →
       evalExcWith evalSymbol today st ⟨sym, candles, true, sOk⟩ =
         .ok .skipNoDay st ∧
       runCycleWith evalSymbol today st (⟨sym, candles, true, sOk⟩ :: rest) =
         ((sym, Outcome.skipNoDay) :: (runCycleWith evalSymbol today st rest).1,
          (runCycleWith evalSymbol today st rest).2)) := by
  have ha : ∀ (today : Nat) (st : EngineState) (sym : String) (candles : List Candle),
      ¬ candles.length < 20 → (dayOf today candles).length = 1 →
      evalSymbol today st sym candles = (.errorIndex, st) := by
    intro today st sym candles hlen hday
    obtain ⟨a, hae⟩ := List.length_eq_one.mp hday
    simp [evalSymbol, hlen, hae]
  refine ⟨ha, fun today st sym candles sOk rest hlen hday => ?_,
    fun today st sym candles sOk rest hlen hday => ?_⟩
  · have he := ha today st sym candles hlen hday
    simp [runCycleWith, evalExcWith, he]
  · have he : evalSymbol today st sym candles = (.skipNoDay, st) := by
      simp [evalSymbol, hlen, hday]
    have hstep : evalExcWith evalSymbol today st ⟨sym, candles, true, sOk⟩ =
        .ok .skipNoDay st := by
      simp [evalExcWith, he]
    exact ⟨hstep, by simp [runCycleWith, hstep]⟩

/-- Witness for claim C10: a 21-candle fetch with a single current-day
candle aborts the cycle before the second symbol. -/
theorem claim_c10_witness :
    runCycleWith evalSymbol 1 st0
      [⟨"TCS", cs10, true, true⟩, ⟨"INFY", cs1, true, true⟩] = ([], st0, true) :=
  claim_c10_single_candle.2.1 1 st0 "TCS" cs10 true [⟨"INFY", cs1, true, true⟩]
    (by decide) (by decide)

end OrbVwap
